import Mathlib

/-!
Shallow embedding of the `btc-transaction-utils` library (multisig redeem
script codec, signature value types, and the P2WPK / P2WSH witness
assembly), together with proofs about the claims of its specification.

Scripts are byte lists (`List Nat`, entries intended `< 256`).  The
external collaborators (the `bitcoin` script primitives and the
`secp256k1` elliptic-curve engine) are embedded as follows:

* the script instruction iterator, `Builder::push_slice`, `push_int`,
  `build_scriptint` and `read_uint` of the `bitcoin` crate are translated
  byte-for-byte (release-mode wrapping semantics for `read_uint` shifts);
* a secp256k1 public key is identified with its compressed serialization:
  33 bytes whose first byte is 2 or 3 and whose x coordinate names a
  point on the curve `y^2 = x^3 + 7` over the secp256k1 field — the same
  test `secp256k1_ec_pubkey_parse` performs, decided here by Euler's
  criterion (the uncompressed 65-byte form, which this library never
  produces, is omitted);
* the engine's DER signature decoder is an explicit function parameter
  `derOk` where it matters (`InputSignatureRef::from_bytes`).
-/

set_option maxRecDepth 16384

/-- A decoded script instruction, as produced by the `bitcoin` crate's
instruction iterator: a data push, an opcode, or an iteration error
(early end of script inside a push). -/
inductive Instruction where
  | pushBytes (data : List Nat)
  | op (opcode : Nat)
  | err
deriving DecidableEq, Repr

/-- One step of the `bitcoin` crate's script instruction iterator.
Returns the decoded instruction and the remaining bytes; `none` when the
script is exhausted.  Opcodes `0x00`–`0x4b` push that many following
bytes; `0x4c`/`0x4d`/`0x4e` are `OP_PUSHDATA1/2/4` with a little-endian
length; every other byte is an ordinary opcode.  A truncated push yields
the error instruction and ends iteration. -/
def nextInstruction : List Nat → Option (Instruction × List Nat)
  | [] => none
  | b :: rest =>
    if b ≤ 75 then
      if rest.length < b then some (.err, [])
      else some (.pushBytes (rest.take b), rest.drop b)
    else if b = 76 then
      match rest with
      | [] => some (.err, [])
      | n :: rest2 =>
        if rest2.length < n then some (.err, [])
        else some (.pushBytes (rest2.take n), rest2.drop n)
    else if b = 77 then
      match rest with
      | n1 :: n2 :: rest2 =>
        let n := n1 + 256 * n2
        if rest2.length < n then some (.err, [])
        else some (.pushBytes (rest2.take n), rest2.drop n)
      | _ => some (.err, [])
    else if b = 78 then
      match rest with
      | n1 :: n2 :: n3 :: n4 :: rest2 =>
        let n := n1 + 256 * n2 + 65536 * n3 + 16777216 * n4
        if rest2.length < n then some (.err, [])
        else some (.pushBytes (rest2.take n), rest2.drop n)
      | _ => some (.err, [])
    else some (.op b, rest)

/-- `opcodes::All::classify` restricted to the `Class::PushNum` case:
`OP_PUSHNUM_NEG1` (0x4f) classifies as -1 and `OP_PUSHNUM_1 ..
OP_PUSHNUM_16` (0x51–0x60) classify as 1..16; everything else is not a
push-number opcode. -/
def classifyPushNum (b : Nat) : Option Int :=
  if b = 0x4f then some (-1)
  else if 0x51 ≤ b ∧ b ≤ 0x60 then some ((b : Int) - 0x50)
  else none

/-- Rust `num as usize` for a 32-bit signed `num`, on a 64-bit target. -/
def usizeOfI32 (num : Int) : Nat := (num % (2 : Int) ^ 64).toNat

/-- `script::read_uint data data.len()`: little-endian accumulation
`ret += (data[i] as u64) << (i * 8)` with release-mode u64 wrapping (the
shift amount is masked by 64, the sum is taken mod `2^64`).  With
`size = data.len()` the length test never fails, so the result is total. -/
def read_uint_acc : List Nat → Nat → Nat
  | [], _ => 0
  | b :: rest, i => b % 256 * 2 ^ (8 * i % 64) + read_uint_acc rest (i + 1)

/-- `script::read_uint` over the whole slice, wrapped to `u64`. -/
def read_uint (data : List Nat) : Nat := read_uint_acc data 0 % 2 ^ 64

/-- The local helper `read_usize` of `RedeemScriptContent::parse`: an
opcode instruction yields its push-number class value cast to `usize`, a
push yields the little-endian value of the pushed bytes, anything else
(including an iterator error) yields `none`. -/
def read_usize : Instruction → Option Nat
  | .op b => (classifyPushNum b).map usizeOfI32
  | .pushBytes data => some (read_uint data)
  | .err => none

/-- The prime of the secp256k1 base field. -/
def secpP : Nat := 2 ^ 256 - 2 ^ 32 - 977

/-- Modular exponentiation by repeated squaring, with explicit fuel (one
unit per exponent bit).  The secp256k1 exponents used here are below
`2^256`, so the 257 units supplied by `powMod` always reach `e = 0`. -/
def powModAux (m : Nat) : Nat → Nat → Nat → Nat → Nat
  | 0, _, _, acc => acc
  | fuel + 1, b, e, acc =>
    if e = 0 then acc
    else powModAux m fuel (b * b % m) (e / 2)
      (if e % 2 = 1 then acc * b % m else acc)

/-- `b ^ e` modulo `m`, for exponents below `2^257`. -/
def powMod (b e m : Nat) : Nat := powModAux m 257 (b % m) e (1 % m)

/-- Big-endian value of a byte string. -/
def bytesToNatBE (l : List Nat) : Nat :=
  l.foldl (fun acc b => acc * 256 + b % 256) 0

/-- The on-curve test of `secp256k1_ec_pubkey_parse` for a compressed
encoding with sign byte `pb` and x coordinate `x`: the coordinate is a
field element and `x^3 + 7` is a square mod the field prime, so that a
matching y exists (decided by Euler's criterion; in the degenerate
`y = 0` case only the even sign byte 2 matches). -/
def onCurveCompressed (pb x : Nat) : Bool :=
  x < secpP &&
    (let a := (x * x % secpP * x + 7) % secpP
     if a = 0 then pb = 2 else powMod a ((secpP - 1) / 2) secpP = 1)

/-- Validity of a byte slice as a compressed secp256k1 public key: 33
bytes, first byte 2 or 3, and the big-endian x coordinate names a curve
point.  This is the acceptance condition of the EC engine's
`PublicKey::from_slice` restricted to the compressed form (the 65-byte
uncompressed form, which this library never produces, is omitted). -/
def validPublicKeySlice (l : List Nat) : Bool :=
  l.length = 33 && (l.head? = some 2 || l.head? = some 3) &&
    l.all (· < 256) && onCurveCompressed (l.headD 0) (bytesToNatBE l.tail)

/-- A secp256k1 public key, identified with its compressed serialization. -/
def PublicKey := { l : List Nat // validPublicKeySlice l = true }

instance : DecidableEq PublicKey := fun a b =>
  decidable_of_iff (a.val = b.val) Subtype.ext_iff.symm

/-- `secp256k1::PublicKey::from_slice` (shape-level model, see above). -/
def PublicKey.from_slice (l : List Nat) : Option PublicKey :=
  if h : validPublicKeySlice l = true then some ⟨l, h⟩ else none

/-- `PublicKey::serialize`: the compressed 33-byte form. -/
def PublicKey.serialize (k : PublicKey) : List Nat := k.val

/-- `RedeemScriptError` from `multisig.rs`. -/
inductive RedeemScriptError where
  | IncorrectQuorum
  | NoQuorum
  | NotEnoughPublicKeys
  | NotStandard
deriving DecidableEq, Repr

/-- `RedeemScriptContent`: the decoded form of a redeem script. -/
structure RedeemScriptContent where
  public_keys : List PublicKey
  quorum : Nat
deriving DecidableEq

/-- The key-collection loop of `RedeemScriptContent::parse`: while the
next instruction is a data push, stop (without consuming) on a one-byte
push, otherwise decode the push as a public key (failing with
`NotStandard` when the EC engine rejects it) and consume it.  The loop is
written with explicit fuel to keep it structurally recursive; each
iteration consumes at least one byte, so any `fuel > s.length` computes
the loop's true result (`parseKeysF_fuel_irrel` below). -/
def parseKeysF : Nat → List Nat → List PublicKey →
    Except RedeemScriptError (List PublicKey × List Nat)
  | 0, s, acc => .ok (acc.reverse, s)
  | fuel + 1, s, acc =>
    match nextInstruction s with
    | some (.pushBytes slice, rest) =>
      if slice.length = 1 then .ok (acc.reverse, s)
      else
        match PublicKey.from_slice slice with
        | none => .error .NotStandard
        | some pk => parseKeysF fuel rest (pk :: acc)
    | _ => .ok (acc.reverse, s)

/-- `RedeemScriptContent::parse`: quorum, then the key loop, then the
key-count integer (which must equal the number of collected keys), then
`OP_CHECKMULTISIG` (0xae). -/
def RedeemScriptContent.parse (script : List Nat) :
    Except RedeemScriptError RedeemScriptContent :=
  match nextInstruction script with
  | none => .error .NoQuorum
  | some (ins, rest) =>
    match read_usize ins with
    | none => .error .NoQuorum
    | some quorum =>
      match parseKeysF (rest.length + 1) rest [] with
      | .error e => .error e
      | .ok (public_keys, rest2) =>
        match nextInstruction rest2 with
        | none => .error .NotStandard
        | some (ins2, rest3) =>
          match read_usize ins2 with
          | none => .error .NotStandard
          | some public_keys_len =>
            if public_keys.length = public_keys_len then
              match nextInstruction rest3 with
              | some (.op b, _) =>
                if b = 0xae then .ok ⟨public_keys, quorum⟩
                else .error .NotStandard
              | _ => .error .NotStandard
            else .error .NotEnoughPublicKeys

/-- `RedeemScript::from_script`: validate by parsing, keep the raw bytes. -/
def RedeemScript.from_script (script : List Nat) :
    Except RedeemScriptError (List Nat) :=
  match RedeemScriptContent.parse script with
  | .ok _ => .ok script
  | .error e => .error e

/-- `Builder::push_slice` of the `bitcoin` crate: a direct push for fewer
than 76 bytes, otherwise `OP_PUSHDATA1/2/4` with a little-endian length.
(The panic branch for data of length `≥ 2^32` is unreachable here.) -/
def push_slice (data : List Nat) : List Nat :=
  if data.length < 76 then data.length :: data
  else if data.length < 256 then 76 :: data.length :: data
  else if data.length < 65536 then
    77 :: data.length % 256 :: data.length / 256 :: data
  else
    78 :: data.length % 256 :: data.length / 256 % 256 ::
      data.length / 65536 % 256 :: data.length / 16777216 :: data

/-- `script::build_scriptint` for a positive argument: little-endian
bytes of `n`, with a zero pad byte appended when the top byte has the
sign bit set. -/
def build_scriptint_pos (n : Nat) : List Nat :=
  if h : n ≤ 255 then (if 128 ≤ n then [n, 0] else [n])
  else n % 256 :: build_scriptint_pos (n / 256)
termination_by n
decreasing_by
  exact Nat.div_lt_self (by omega) (by omega)

/-- `script::build_scriptint` (only nonnegative arguments occur here). -/
def build_scriptint (n : Nat) : List Nat :=
  if n = 0 then [] else build_scriptint_pos n

/-- `Builder::push_int`: opcodes `OP_PUSHNUM_1..16` for 1..16, `OP_0`
for 0, otherwise a data push of the script-integer encoding. -/
def push_int (n : Nat) : List Nat :=
  if 1 ≤ n ∧ n ≤ 16 then [0x50 + n]
  else if n = 0 then [0x00]
  else push_slice (build_scriptint n)

/-- The middle section of a built redeem script: each key's compressed
serialization pushed in order. -/
def encKeys (keys : List PublicKey) : List Nat :=
  (keys.map fun k => push_slice k.serialize).flatten

/-- The script emitted by `RedeemScriptBuilder::to_script` once the
preconditions hold: `PUSH(q) PUSH(key_1) … PUSH(key_n) PUSH(n)
OP_CHECKMULTISIG`. -/
def multisigScript (quorum : Nat) (keys : List PublicKey) : List Nat :=
  push_int quorum ++ encKeys keys ++ push_int keys.length ++ [0xae]

/-- `RedeemScriptBuilder` wraps a `RedeemScriptContent` accumulator. -/
def RedeemScriptBuilder := RedeemScriptContent

/-- `RedeemScriptBuilder::new`. -/
def RedeemScriptBuilder.new : RedeemScriptBuilder :=
  { quorum := 0, public_keys := [] }

/-- `RedeemScriptBuilder::with_quorum`. -/
def RedeemScriptBuilder.with_quorum (quorum : Nat) : RedeemScriptBuilder :=
  { quorum := quorum, public_keys := [] }

/-- `RedeemScriptBuilder::with_public_keys`: collect the keys and set the
quorum to their count. -/
def RedeemScriptBuilder.with_public_keys (public_keys : List PublicKey) :
    RedeemScriptBuilder :=
  { public_keys := public_keys, quorum := public_keys.length }

/-- `RedeemScriptBuilder::public_key`: append one key. -/
def RedeemScriptBuilder.public_key (b : RedeemScriptBuilder) (pk : PublicKey) :
    RedeemScriptBuilder :=
  { public_keys := RedeemScriptContent.public_keys b ++ [pk],
    quorum := RedeemScriptContent.quorum b }

/-- `RedeemScriptBuilder::quorum`: set the quorum. -/
def RedeemScriptBuilder.quorum (b : RedeemScriptBuilder) (quorum : Nat) :
    RedeemScriptBuilder :=
  { public_keys := RedeemScriptContent.public_keys b, quorum := quorum }

/-- `RedeemScriptBuilder::to_script`: the three `ensure!` preconditions
in source order, then the script assembly. -/
def RedeemScriptBuilder.to_script (b : RedeemScriptBuilder) :
    Except RedeemScriptError (List Nat) :=
  let total_count := (RedeemScriptContent.public_keys b).length
  if ¬ RedeemScriptContent.quorum b > 0 then .error .NoQuorum
  else if ¬ total_count ≠ 0 then .error .NotEnoughPublicKeys
  else if ¬ total_count ≥ RedeemScriptContent.quorum b then
    .error .IncorrectQuorum
  else .ok (multisigScript (RedeemScriptContent.quorum b)
    (RedeemScriptContent.public_keys b))

/-- One hex digit of the `hex` crate's decoder: `0-9`, `a-f`, `A-F`
(both cases accepted). -/
def hexVal (c : Char) : Option Nat :=
  if '0' ≤ c ∧ c ≤ '9' then some (c.toNat - 48)
  else if 'a' ≤ c ∧ c ≤ 'f' then some (c.toNat - 97 + 10)
  else if 'A' ≤ c ∧ c ≤ 'F' then some (c.toNat - 65 + 10)
  else none

/-- `hex::decode`: pairs of hex digits, big-endian within a byte; an odd
number of characters or a non-hex character is an error (`none`). -/
def hexDecode : List Char → Option (List Nat)
  | [] => some []
  | [_] => none
  | c1 :: c2 :: rest =>
    match hexVal c1, hexVal c2, hexDecode rest with
    | some h, some l, some tail => some ((16 * h + l) :: tail)
    | _, _, _ => none

/-- One lower-case hex digit (`{:x}` formatting). -/
def hexDigit (n : Nat) : Char :=
  if n < 10 then Char.ofNat (48 + n) else Char.ofNat (97 + (n - 10))

/-- Lower-case hex encoding of a byte string, two digits per byte
(`fmt::LowerHex` for `Script`). -/
def hexEncode : List Nat → List Char
  | [] => []
  | b :: rest => hexDigit (b / 16 % 16) :: hexDigit (b % 16) :: hexEncode rest

/-- `RedeemScript`'s `Display` implementation: lower-case hex of the raw
script bytes. -/
def RedeemScript.to_string (script : List Nat) : List Char := hexEncode script

/-- `RedeemScript`'s `FromStr` implementation: hex-decode, then validate
through `RedeemScript::from_script`.  The two error sources (hex error,
script error) are erased to `none`, as `failure::Error` erases them for
callers matching only on success. -/
def RedeemScript.from_str (s : List Char) : Option (List Nat) :=
  match hexDecode s with
  | none => none
  | some bytes =>
    match RedeemScript.from_script bytes with
    | .ok script => some script
    | .error _ => none

/-- `bitcoin`'s `SigHashType`. -/
inductive SigHashType where
  | All
  | NoneT
  | Single
  | AllPlusAnyoneCanPay
  | NonePlusAnyoneCanPay
  | SinglePlusAnyoneCanPay
deriving DecidableEq, Repr

/-- `SigHashType as u8`: the discriminant values. -/
def SigHashType.toU8 : SigHashType → Nat
  | .All => 0x01
  | .NoneT => 0x02
  | .Single => 0x03
  | .AllPlusAnyoneCanPay => 0x81
  | .NonePlusAnyoneCanPay => 0x82
  | .SinglePlusAnyoneCanPay => 0x83

/-- `SigHashType::from_u32`: match on `n & 0x9f`, defaulting to `All`. -/
def SigHashType.from_u32 (n : Nat) : SigHashType :=
  if n &&& 0x9f = 0x01 then .All
  else if n &&& 0x9f = 0x02 then .NoneT
  else if n &&& 0x9f = 0x03 then .Single
  else if n &&& 0x9f = 0x81 then .AllPlusAnyoneCanPay
  else if n &&& 0x9f = 0x82 then .NonePlusAnyoneCanPay
  else if n &&& 0x9f = 0x83 then .SinglePlusAnyoneCanPay
  else .All

/-- `InputSignature`: a DER signature with the sighash-type byte
appended (`InputSignature(Vec<u8>)`). -/
structure InputSignature where
  bytes : List Nat
deriving DecidableEq, Repr

/-- `InputSignature::new`: push the sighash-type byte. -/
def InputSignature.new (inner : List Nat) (sighash_type : SigHashType) :
    InputSignature :=
  ⟨inner ++ [sighash_type.toU8]⟩

/-- `InputSignature::content`: everything except the trailing byte
(`split_last().unwrap().1`; the unwrap is reachable only on the empty
vector, which `new` never produces). -/
def InputSignature.content (s : InputSignature) : List Nat := s.bytes.dropLast

/-- `InputSignature::sighash_type`: decode the trailing byte (the
`getLastD` default stands for the unreachable empty-vector unwrap). -/
def InputSignature.sighash_type (s : InputSignature) : SigHashType :=
  SigHashType.from_u32 (s.bytes.getLastD 0)

/-- The secp256k1 error variants this library can surface. -/
inductive Secp256k1Error where
  | IncorrectSignature
  | InvalidMessage
  | InvalidPublicKey
  | InvalidSignature
  | InvalidSecretKey
deriving DecidableEq, Repr

/-- `InputSignatureRef::from_bytes`, parameterized by the EC engine's
DER decoder `derOk` (an external collaborator): an empty slice fails with
`InvalidMessage`; otherwise everything except the last byte must parse
as a DER signature, whose failure is the engine's `InvalidSignature`;
on success the raw bytes are kept. -/
def InputSignatureRef.from_bytes (derOk : List Nat → Bool)
    (bytes : List Nat) : Except Secp256k1Error (List Nat) :=
  if bytes = [] then .error .InvalidMessage
  else if derOk bytes.dropLast then .ok bytes
  else .error .InvalidSignature

/-- `InputSignatureRef::content`. -/
def InputSignatureRef.content (bytes : List Nat) : List Nat := bytes.dropLast

/-- `InputSignatureRef::sighash_type`. -/
def InputSignatureRef.sighash_type (bytes : List Nat) : SigHashType :=
  SigHashType.from_u32 (bytes.getLastD 0)

/-- A transaction output of the external transaction model. -/
structure TxOut where
  value : Nat
  script_pubkey : List Nat
deriving DecidableEq, Repr

/-- A transaction input of the external transaction model (`prev_hash` /
`prev_index` name the referenced previous output, as in the version of
the model used by `lib.rs` and `p2wsh.rs`). -/
structure TxIn where
  prev_hash : Nat
  prev_index : Nat
  script_sig : List Nat
  sequence : Nat
  witness : List (List Nat)
deriving DecidableEq, Repr

/-- A transaction of the external transaction model. -/
structure Transaction where
  version : Int
  lock_time : Nat
  input : List TxIn
  output : List TxOut
deriving DecidableEq, Repr

/-- `TxInRef`: a transaction together with an input index.  The `assert!`
of `TxInRef::new` is embedded as the structure invariant `isLt`, so a
`TxInRef` exists exactly when the constructor would not have panicked. -/
structure TxInRef where
  transaction : Transaction
  index : Nat
  isLt : index < transaction.input.length

/-- `TxInRef::input`: the referenced input. -/
def TxInRef.input (r : TxInRef) : TxIn :=
  r.transaction.input.get ⟨r.index, r.isLt⟩

/-- `TxOutValue` from `lib.rs`: how to obtain the spent amount. -/
inductive TxOutValue where
  | Amount (value : Nat)
  | PrevTx (prev_tx : Transaction)
  | PrevOut (out : TxOut)

/-- `TxOutValue::amount`.  The `PrevTx` arm indexes the previous
transaction's outputs with the input's `prev_index`; the Rust code
panics when that index is out of range, which the embedding renders as
`none`. -/
def TxOutValue.amount (v : TxOutValue) (txin : TxInRef) : Option Nat :=
  match v with
  | .Amount value => some value
  | .PrevTx prev_tx =>
    (prev_tx.output.get? txin.input.prev_index).map TxOut.value
  | .PrevOut out => some out.value

namespace p2wpk

/-- The network tag (affects only address derivation). -/
inductive Network where
  | Bitcoin
  | Testnet
  | Regtest
deriving DecidableEq, Repr

/-- `p2wpk::InputSigner`: a public key and a network tag (the owned
secp256k1 context has no observable state and is omitted). -/
structure InputSigner where
  public_key : PublicKey
  network : Network

/-- `p2wpk::InputSigner::witness_data`: the two-element stack. -/
def InputSigner.witness_data (s : InputSigner) (signature : List Nat) :
    List (List Nat) :=
  [signature, s.public_key.serialize]

/-- `p2wpk::InputSigner::spend_input`: replace the input's witness. -/
def InputSigner.spend_input (s : InputSigner) (input : TxIn)
    (signature : InputSignature) : TxIn :=
  { input with witness := s.witness_data signature.bytes }

end p2wpk

namespace p2wsh

/-- `p2wsh::InputSigner`: holds the redeem script (raw bytes; the owned
secp256k1 context has no observable state and is omitted). -/
structure InputSigner where
  script : List Nat

/-- `p2wsh::InputSigner::witness_data`: an empty placeholder, then the
signatures, then the serialized redeem script. -/
def InputSigner.witness_data (s : InputSigner) (signatures : List (List Nat)) :
    List (List Nat) :=
  [] :: signatures ++ [s.script]

/-- `p2wsh::InputSigner::spend_input`: replace the input's witness with
the assembled stack. -/
def InputSigner.spend_input (s : InputSigner) (input : TxIn)
    (signatures : List InputSignature) : TxIn :=
  { input with witness := s.witness_data (signatures.map InputSignature.bytes) }

end p2wsh

/-- A concrete compressed-key byte slice: the secp256k1 generator point
G in compressed form (prefix 2, as G's y coordinate is even). -/
def k0bytes : List Nat :=
  [2, 121, 190, 102, 126, 249, 220, 187, 172, 85, 160, 98, 149, 206,
   135, 11, 7, 2, 155, 252, 219, 45, 206, 40, 217, 89, 242, 129, 91,
   22, 248, 23, 152]

/-- A concrete public key used by concrete instances below. -/
def k0 : PublicKey := ⟨k0bytes, by decide⟩

/-- A concrete script declaring quorum 3 over a single key (a 3-of-1
"multisig"): `OP_PUSHNUM_3 PUSH(key) OP_PUSHNUM_1 OP_CHECKMULTISIG`. -/
def script31 : List Nat := [0x53, 0x21] ++ k0bytes ++ [0x51, 0xae]

/-- A concrete valid 1-of-1 redeem script:
`OP_PUSHNUM_1 PUSH(key) OP_PUSHNUM_1 OP_CHECKMULTISIG`. -/
def script11 : List Nat := [0x51, 0x21] ++ k0bytes ++ [0x51, 0xae]

/-- 128 copies of the concrete key (`parse` chokes on the two-byte
key-count push that 128 keys require). -/
def keys128 : List PublicKey := List.replicate 128 k0

/-- The upper-case hex spelling of `script11` (every hex letter written
in upper case). -/
def upperHex11 : List Char :=
  ("51210279BE667EF9DCBBAC55A06295CE870B07029BFCDB2DCE28D959F2815B16F8179851AE").toList

/-- A concrete one-input transaction whose input references output 0,
and with a single 42-satoshi output. -/
def tx0 : Transaction :=
  { version := 2, lock_time := 0,
    input := [{ prev_hash := 0, prev_index := 0, script_sig := [],
                sequence := 0, witness := [] }],
    output := [{ value := 42, script_pubkey := [] }] }

/-- A reference to the only input of `tx0`. -/
def txin0 : TxInRef := ⟨tx0, 0, by simp [tx0]⟩

/-- Decidable equality for `Except`, used to evaluate parse results on
concrete scripts. -/
instance {e a : Type} [DecidableEq e] [DecidableEq a] :
    DecidableEq (Except e a)
  | .ok x, .ok y => decidable_of_iff (x = y) (by simp)
  | .ok _, .error _ => isFalse (by simp)
  | .error _, .ok _ => isFalse (by simp)
  | .error x, .error y => decidable_of_iff (x = y) (by simp)

theorem nextInstruction_length {s r : List Nat} {i : Instruction}
    (h : nextInstruction s = some (i, r)) : r.length < s.length := by
  match s with
  | [] => simp [nextInstruction] at h
  | b :: rest =>
    simp only [nextInstruction] at h
    repeat' split at h
    all_goals cases h
    all_goals simp [List.length_drop]
    all_goals omega

theorem parseKeysF_fuel_irrel (f1 : Nat) : ∀ (f2 : Nat) (s : List Nat)
    (acc : List PublicKey), s.length < f1 → s.length < f2 →
    parseKeysF f1 s acc = parseKeysF f2 s acc := by
  induction f1 with
  | zero => omega
  | succ f1 ih =>
    intro f2 s acc h1 h2
    match f2, h2 with
    | f2 + 1, h2 =>
      simp only [parseKeysF]
      cases hni : nextInstruction s with
      | none => rfl
      | some p =>
        obtain ⟨ins, r⟩ := p
        cases ins with
        | pushBytes slice =>
          by_cases hlen : slice.length = 1
          · simp [hlen]
          · simp only [hlen, if_false]
            cases PublicKey.from_slice slice with
            | none => rfl
            | some pk =>
              have hr := nextInstruction_length hni
              exact ih f2 r (pk :: acc) (by omega) (by omega)
        | op b => rfl
        | err => rfl

theorem parseKeysF_stop {s : List Nat} (f : Nat) (acc : List PublicKey)
    (h : ∀ l r, nextInstruction s = some (.pushBytes l, r) → l.length = 1) :
    parseKeysF f s acc = .ok (acc.reverse, s) := by
  cases f with
  | zero => rfl
  | succ f =>
    simp only [parseKeysF]
    cases hni : nextInstruction s with
    | none => rfl
    | some p =>
      obtain ⟨ins, r⟩ := p
      cases ins with
      | pushBytes slice => simp [h slice r hni]
      | op b => rfl
      | err => rfl

theorem PublicKey.val_length (k : PublicKey) : k.val.length = 33 := by
  have h := k.property
  simp only [validPublicKeySlice, Bool.and_eq_true, decide_eq_true_eq] at h
  exact h.1.1.1

theorem PublicKey.from_slice_serialize (k : PublicKey) :
    PublicKey.from_slice k.serialize = some k := by
  obtain ⟨l, hl⟩ := k
  unfold PublicKey.from_slice PublicKey.serialize
  rw [dif_pos hl]

theorem PublicKey.serialize_length (k : PublicKey) :
    k.serialize.length = 33 :=
  PublicKey.val_length k

theorem nextInstruction_push_small {l : List Nat} (r : List Nat)
    (h : l.length < 76) :
    nextInstruction (push_slice l ++ r) = some (.pushBytes l, r) := by
  have hs : push_slice l ++ r = l.length :: (l ++ r) := by
    unfold push_slice
    rw [if_pos h]
    simp
  rw [hs]
  simp only [nextInstruction]
  rw [if_pos (by omega)]
  rw [if_neg (by simp only [List.length_append]; omega)]
  simp [List.take_left, List.drop_left]

theorem usizeOfI32_ofNat {n : Nat} (h : n < 2 ^ 64) :
    usizeOfI32 (n : Int) = n := by
  unfold usizeOfI32
  rw [Int.emod_eq_of_lt (by positivity) (by exact_mod_cast h)]
  simp

theorem parseKeysF_encKeys (keys : List PublicKey) :
    ∀ (f : Nat) (acc : List PublicKey) (rest : List Nat),
    (encKeys keys ++ rest).length < f →
    parseKeysF f (encKeys keys ++ rest) acc
      = parseKeysF (rest.length + 1) rest (keys.reverse ++ acc) := by
  induction keys with
  | nil =>
    intro f acc rest h
    simp only [encKeys, List.map_nil, List.flatten_nil, List.nil_append,
      List.reverse_nil] at h ⊢
    exact parseKeysF_fuel_irrel f (rest.length + 1) rest acc h (by omega)
  | cons k ks ih =>
    intro f acc rest h
    have henc : encKeys (k :: ks) = push_slice k.serialize ++ encKeys ks := by
      simp [encKeys]
    rw [henc] at h ⊢
    have hlen : (push_slice k.serialize).length = 34 := by
      unfold push_slice
      rw [if_pos (by rw [PublicKey.serialize, PublicKey.val_length]; omega)]
      simp [PublicKey.serialize, PublicKey.val_length]
    match f, h with
    | f + 1, h =>
      rw [List.append_assoc]
      have hni := nextInstruction_push_small (l := k.serialize)
        (encKeys ks ++ rest) (by rw [PublicKey.serialize_length]; omega)
      simp only [parseKeysF, hni]
      rw [if_neg (by rw [PublicKey.serialize_length]; omega)]
      rw [PublicKey.from_slice_serialize]
      dsimp only
      have := ih f (k :: acc) rest (by
        rw [List.append_assoc, List.length_append, hlen] at h
        omega)
      rw [this]
      show parseKeysF (rest.length + 1) rest (ks.reverse ++ k :: acc)
        = parseKeysF (rest.length + 1) rest ((k :: ks).reverse ++ acc)
      exact congrArg _ (by simp)

theorem push_int_pushnum {n : Nat} (h1 : 1 ≤ n) (h2 : n ≤ 16) (r : List Nat) :
    nextInstruction (push_int n ++ r) = some (.op (0x50 + n), r) ∧
    read_usize (.op (0x50 + n)) = some n := by
  constructor
  · have hp : push_int n = [0x50 + n] := by
      unfold push_int
      rw [if_pos ⟨h1, h2⟩]
    rw [hp]
    show nextInstruction ((0x50 + n) :: r) = _
    simp only [nextInstruction]
    rw [if_neg (by omega), if_neg (by omega), if_neg (by omega),
      if_neg (by omega)]
  · simp only [read_usize, classifyPushNum]
    rw [if_neg (by omega), if_pos (by omega)]
    simp only [Option.map_some']
    rw [show ((0x50 + n : Nat) : Int) - 0x50 = (n : Int) by push_cast; ring]
    rw [usizeOfI32_ofNat (by
      calc n ≤ 16 := h2
        _ < 2 ^ 64 := by norm_num)]

theorem push_int_onebyte {n : Nat} (h1 : 17 ≤ n) (h2 : n ≤ 127) (r : List Nat) :
    push_int n = [1, n] ∧
    nextInstruction (push_int n ++ r) = some (.pushBytes [n], r) ∧
    read_usize (.pushBytes [n]) = some n := by
  have hp : push_int n = [1, n] := by
    unfold push_int
    rw [if_neg (by omega), if_neg (by omega)]
    unfold build_scriptint
    rw [if_neg (by omega)]
    unfold build_scriptint_pos
    rw [dif_pos (by omega), if_neg (by omega)]
    unfold push_slice
    norm_num
  refine ⟨hp, ?_, ?_⟩
  · have := nextInstruction_push_small (l := [n]) r (by simp)
    rw [show push_slice [n] = [1, n] from by unfold push_slice; norm_num] at this
    rw [hp]
    exact this
  · simp only [read_usize, read_uint, read_uint_acc]
    norm_num
    omega

theorem push_int_decodes {n : Nat} (h1 : 1 ≤ n) (h2 : n ≤ 127) (r : List Nat) :
    ∃ ins, nextInstruction (push_int n ++ r) = some (ins, r) ∧
      read_usize ins = some n ∧
      ∀ l r2, nextInstruction (push_int n ++ r) = some (.pushBytes l, r2) →
        l.length = 1 := by
  by_cases h16 : n ≤ 16
  · obtain ⟨ha, hb⟩ := push_int_pushnum h1 h16 r
    refine ⟨.op (0x50 + n), ha, hb, ?_⟩
    intro l r2 hlr
    rw [ha] at hlr
    simp at hlr
  · obtain ⟨_, hb, hc⟩ := push_int_onebyte (by omega) h2 r
    refine ⟨.pushBytes [n], hb, hc, ?_⟩
    intro l r2 hlr
    rw [hb] at hlr
    simp only [Option.some.injEq, Prod.mk.injEq, Instruction.pushBytes.injEq] at hlr
    rw [← hlr.1]
    rfl

theorem to_script_ok {b : RedeemScriptContent} (h1 : 0 < b.quorum)
    (h2 : b.public_keys.length ≠ 0) (h3 : b.quorum ≤ b.public_keys.length) :
    RedeemScriptBuilder.to_script b
      = .ok (multisigScript b.quorum b.public_keys) := by
  unfold RedeemScriptBuilder.to_script
  dsimp only
  rw [if_neg (not_not_intro h1), if_neg (not_not_intro h2),
    if_neg (not_not_intro h3)]

theorem parse_multisigScript {q : Nat} {keys : List PublicKey}
    (h1 : 1 ≤ q) (h2 : q ≤ keys.length) (h3 : keys.length ≤ 127) :
    RedeemScriptContent.parse (multisigScript q keys) = .ok ⟨keys, q⟩ := by
  have hms : multisigScript q keys
      = push_int q ++ (encKeys keys ++ (push_int keys.length ++ [0xae])) := by
    simp [multisigScript, List.append_assoc]
  obtain ⟨insq, hq1, hq2, _⟩ :=
    push_int_decodes h1 (by omega) (encKeys keys ++ (push_int keys.length ++ [0xae]))
  obtain ⟨insn, hn1, hn2, hn3⟩ :=
    push_int_decodes (n := keys.length) (by omega) h3 [0xae]
  have hstop : parseKeysF ((push_int keys.length ++ [0xae]).length + 1)
      (push_int keys.length ++ [0xae]) (keys.reverse ++ [])
      = .ok (keys, push_int keys.length ++ [0xae]) := by
    rw [parseKeysF_stop _ _ hn3]
    simp
  have hwalk := parseKeysF_encKeys keys
    ((encKeys keys ++ (push_int keys.length ++ [0xae])).length + 1) []
    (push_int keys.length ++ [0xae]) (by omega)
  have hae : nextInstruction [0xae] = some (.op 0xae, []) := by decide
  rw [hms]
  simp only [RedeemScriptContent.parse, hq1, hq2, hwalk, hstop, hn1, hn2, hae]
  simp

theorem parse_multisigScript_128 :
    RedeemScriptContent.parse (multisigScript 1 keys128)
      = .error .NotStandard := by
  have hms : multisigScript 1 keys128
      = push_int 1 ++ (encKeys keys128 ++ (push_int 128 ++ [0xae])) := by
    simp [multisigScript, keys128, List.append_assoc]
  obtain ⟨insq, hq1, hq2, _⟩ := push_int_decodes (n := 1) le_rfl (by omega)
    (encKeys keys128 ++ (push_int 128 ++ [0xae]))
  have h128 : push_int 128 ++ [0xae] = [2, 128, 0, 0xae] := by
    unfold push_int
    rw [if_neg (by omega), if_neg (by omega)]
    unfold build_scriptint
    rw [if_neg (by omega)]
    unfold build_scriptint_pos
    rw [dif_pos (by omega), if_pos (by omega)]
    unfold push_slice
    norm_num
  have htail : ∀ acc, parseKeysF ((push_int 128 ++ [0xae]).length + 1)
      (push_int 128 ++ [0xae]) acc = .error .NotStandard := by
    intro acc
    rw [h128]
    show parseKeysF (4 + 1) [2, 128, 0, 0xae] acc = _
    simp only [parseKeysF]
    rw [show nextInstruction [2, 128, 0, 0xae]
      = some (.pushBytes [128, 0], [0xae]) from by decide]
    norm_num
    rw [show PublicKey.from_slice [128, 0] = none from by decide]
  have hwalk := parseKeysF_encKeys keys128
    ((encKeys keys128 ++ (push_int 128 ++ [0xae])).length + 1) []
    (push_int 128 ++ [0xae]) (by omega)
  rw [hms]
  simp only [RedeemScriptContent.parse, hq1, hq2, hwalk, htail]

/-- Claim C2 failing input: with 128 keys and quorum 1 the builder
succeeds, yet the parser rejects the builder's own output with
`NotStandard` — the two-byte key-count push that 128 keys require is
consumed by the key-collection loop as a would-be public key,
contradicting the claimed `parse(build(q, keys)) = (q, keys)` round trip
(which `parse_multisigScript` above proves for at most 127 keys). -/
theorem C2_failing_input :
    RedeemScriptBuilder.to_script { public_keys := keys128, quorum := 1 }
      = .ok (multisigScript 1 keys128) ∧
    RedeemScriptContent.parse (multisigScript 1 keys128)
      = .error .NotStandard := by
  refine ⟨?_, parse_multisigScript_128⟩
  exact to_script_ok (show (0:Nat) < 1 by norm_num)
    (show keys128.length ≠ 0 by simp [keys128])
    (show 1 ≤ keys128.length by simp [keys128])

/-- Claim C1 counterexample: the concrete script `script31` declares quorum 3
over a single public key; `from_script` accepts it and the decoded
content violates `quorum ≤ key count`, refuting the claimed invariant for
instances produced by parsing. -/
theorem C1_counterexample :
    RedeemScript.from_script script31 = .ok script31 ∧
    RedeemScriptContent.parse script31
      = .ok { public_keys := [k0], quorum := 3 } ∧
    ¬ (3 ≤ ([k0] : List PublicKey).length) := by
  refine ⟨by decide, by decide, by decide⟩

/-- Claim C1 (amended): instances produced by the builder do satisfy
`1 ≤ quorum ≤ key count`, and `from_script` returns an instance exactly
when parsing succeeds (invalid bytes produce a constructor error, never a
partially-valid instance); the quorum bound is not enforced for parsed
instances. -/
theorem C1_construction_invariant :
    (∀ (b : RedeemScriptContent) (s : List Nat),
      RedeemScriptBuilder.to_script b = .ok s →
      1 ≤ RedeemScriptContent.quorum b ∧
        RedeemScriptContent.quorum b
          ≤ (RedeemScriptContent.public_keys b).length) ∧
    (∀ (s : List Nat) (c : RedeemScriptContent),
      RedeemScriptContent.parse s = .ok c →
      RedeemScript.from_script s = .ok s) ∧
    (∀ (s : List Nat) (e : RedeemScriptError),
      RedeemScriptContent.parse s = .error e →
      RedeemScript.from_script s = .error e) := by
  refine ⟨?_, ?_, ?_⟩
  · intro b s h
    unfold RedeemScriptBuilder.to_script at h
    dsimp only at h
    split at h
    · simp at h
    · split at h
      · simp at h
      · split at h
        · simp at h
        · rename_i h1 h2 h3
          simp only [not_not, gt_iff_lt, ge_iff_le, not_lt, not_le] at h1 h2 h3
          omega
  · intro s c h
    unfold RedeemScript.from_script
    rw [h]
  · intro s e h
    unfold RedeemScript.from_script
    rw [h]

/-- Claim C1 witness: the amended theorem evaluated at the concrete 1-of-1
builder state and at the concrete valid script `script11`. -/
theorem C1_witness :
    (1 ≤ RedeemScriptContent.quorum
        { public_keys := [k0], quorum := 1 } ∧
      RedeemScriptContent.quorum { public_keys := [k0], quorum := 1 }
        ≤ (RedeemScriptContent.public_keys
            { public_keys := [k0], quorum := 1 }).length) ∧
    RedeemScript.from_script script11 = .ok script11 := by
  refine ⟨C1_construction_invariant.1 { public_keys := [k0], quorum := 1 }
    (multisigScript 1 [k0]) (by decide), ?_⟩
  exact C1_construction_invariant.2.1 script11
    { public_keys := [k0], quorum := 1 } (by decide)

/-- Claim C3: the three `to_script` preconditions are checked in source order,
each with its own error: quorum 0 always gives `NoQuorum`; positive
quorum with no keys gives `NotEnoughPublicKeys`; positive quorum
exceeding a positive key count gives `IncorrectQuorum`; otherwise the
build succeeds. -/
theorem C3_to_script_errors (b : RedeemScriptContent) :
    (RedeemScriptContent.quorum b = 0 →
      RedeemScriptBuilder.to_script b = .error .NoQuorum) ∧
    (RedeemScriptContent.quorum b ≠ 0 →
      RedeemScriptContent.public_keys b = [] →
      RedeemScriptBuilder.to_script b = .error .NotEnoughPublicKeys) ∧
    (RedeemScriptContent.quorum b ≠ 0 →
      RedeemScriptContent.public_keys b ≠ [] →
      (RedeemScriptContent.public_keys b).length
        < RedeemScriptContent.quorum b →
      RedeemScriptBuilder.to_script b = .error .IncorrectQuorum) ∧
    (RedeemScriptContent.quorum b ≠ 0 →
      RedeemScriptContent.public_keys b ≠ [] →
      RedeemScriptContent.quorum b
        ≤ (RedeemScriptContent.public_keys b).length →
      RedeemScriptBuilder.to_script b
        = .ok (multisigScript (RedeemScriptContent.quorum b)
            (RedeemScriptContent.public_keys b))) := by
  refine ⟨?_, ?_, ?_, ?_⟩
  · intro h
    unfold RedeemScriptBuilder.to_script
    dsimp only
    rw [if_pos (by omega)]
  · intro h1 h2
    unfold RedeemScriptBuilder.to_script
    dsimp only
    rw [if_neg (by omega), if_pos (by simp [h2])]
  · intro h1 h2 h3
    unfold RedeemScriptBuilder.to_script
    dsimp only
    rw [if_neg (by omega),
      if_neg (by simp [List.length_eq_zero]; exact h2), if_pos (by omega)]
  · intro h1 h2 h3
    exact to_script_ok (by omega) (by simp [List.length_eq_zero]; exact h2) h3

/-- Claim C3 witness: the four branches evaluated at concrete builder states. -/
theorem C3_witness :
    RedeemScriptBuilder.to_script { public_keys := [k0], quorum := 0 }
        = .error .NoQuorum ∧
    RedeemScriptBuilder.to_script { public_keys := [], quorum := 3 }
        = .error .NotEnoughPublicKeys ∧
    RedeemScriptBuilder.to_script { public_keys := [k0, k0], quorum := 3 }
        = .error .IncorrectQuorum ∧
    RedeemScriptBuilder.to_script { public_keys := [k0, k0], quorum := 2 }
        = .ok (multisigScript 2 [k0, k0]) := by
  refine ⟨(C3_to_script_errors _).1 rfl,
    (C3_to_script_errors _).2.1 (by decide) rfl,
    (C3_to_script_errors _).2.2.1 (by decide) (by decide) (by decide),
    (C3_to_script_errors { public_keys := [k0, k0], quorum := 2 }).2.2.2
      (by decide) (by decide) (by decide)⟩

/-- Claim C4: the P2WSH `spend_input` sets the target input's witness to the
stack `[empty, sig_1, …, sig_k, redeem script]` — `k + 2` elements, the
signatures kept in supply order (each carrying the trailing sighash-type
byte appended by `InputSignature::new`), the script serialization last. -/
theorem C4_p2wsh_witness_stack (script : List Nat) (input : TxIn)
    (sigs : List InputSignature) (raw : List Nat) (t : SigHashType) :
    ((p2wsh.InputSigner.spend_input ⟨script⟩ input sigs).witness
      = [] :: sigs.map InputSignature.bytes ++ [script]) ∧
    ((p2wsh.InputSigner.spend_input ⟨script⟩ input sigs).witness.length
      = sigs.length + 2) ∧
    (InputSignature.new raw t).bytes = raw ++ [t.toU8] := by
  refine ⟨rfl, ?_, rfl⟩
  simp [p2wsh.InputSigner.spend_input, p2wsh.InputSigner.witness_data]

/-- Claim C5: a script that is a single 32-byte push is rejected with
`NotStandard` (the key count is missing, since the script ends right
after the quorum-position push), and the key-collection loop never
consumes a one-byte push as a public key: it stops there. -/
theorem C5_sha_push_rejected :
    (∀ data : List Nat, data.length = 32 →
      RedeemScriptContent.parse (0x20 :: data) = .error .NotStandard) ∧
    (∀ (f : Nat) (s : List Nat) (acc : List PublicKey) (l r : List Nat),
      nextInstruction s = some (.pushBytes l, r) → l.length = 1 →
      parseKeysF f s acc = .ok (acc.reverse, s)) := by
  constructor
  · intro data hlen
    have h1 : nextInstruction (0x20 :: data) = some (.pushBytes data, []) := by
      simp only [nextInstruction]
      rw [if_pos (by omega), if_neg (by omega)]
      rw [← hlen]
      simp [List.take_length, List.drop_length]
    simp only [RedeemScriptContent.parse, h1]
    simp [read_usize, parseKeysF, nextInstruction]
  · intro f s acc l r hni hl
    refine parseKeysF_stop f acc (fun l2 r2 h2 => ?_)
    rw [hni] at h2
    simp only [Option.some.injEq, Prod.mk.injEq,
      Instruction.pushBytes.injEq] at h2
    rw [← h2.1]
    exact hl

/-- Claim C5 witness: the rejection evaluated at a concrete 32-byte digest
push, and the loop-stop behavior evaluated at a concrete one-byte push. -/
theorem C5_witness :
    RedeemScriptContent.parse (0x20 :: List.replicate 32 0xab)
      = .error .NotStandard ∧
    parseKeysF 3 [1, 5] [] = .ok ([], [1, 5]) := by
  refine ⟨C5_sha_push_rejected.1 (List.replicate 32 0xab) (by decide), ?_⟩
  exact C5_sha_push_rejected.2 3 [1, 5] [] [5] [] (by decide) (by decide)

theorem hexVal_hexDigit : ∀ n, n < 16 → hexVal (hexDigit n) = some n := by
  decide

theorem hexDecode_hexEncode : ∀ bytes : List Nat, (∀ b ∈ bytes, b < 256) →
    hexDecode (hexEncode bytes) = some bytes := by
  intro bytes
  induction bytes with
  | nil => intro; rfl
  | cons b rest ih =>
    intro h
    have hb : b < 256 := h b (by simp)
    have h1 : b / 16 % 16 = b / 16 := by omega
    show hexDecode (hexDigit (b / 16 % 16) :: hexDigit (b % 16)
      :: hexEncode rest) = _
    simp only [hexDecode]
    rw [h1, hexVal_hexDigit (b / 16) (by omega),
      hexVal_hexDigit (b % 16) (by omega),
      ih (fun x hx => h x (by simp [hx]))]
    dsimp only
    have h2 : 16 * (b / 16) + b % 16 = b := by omega
    rw [h2]

/-- Claim C6 counterexample: `from_str` also accepts upper-case hex (the
concrete string `upperHex11`), and the accepted script's `to_string` is
its lower-case spelling, which differs from the accepted input — so
`to_string` is not a left inverse of `from_str` on all accepted
strings. -/
theorem C6_counterexample :
    RedeemScript.from_str upperHex11 = some script11 ∧
    RedeemScript.to_string script11 ≠ upperHex11 := by
  exact ⟨by decide, by decide⟩

/-- Claim C6 (amended): for every byte script accepted by the parser,
`from_str (to_string script)` succeeds and returns the same script
(so the pair is an exact round trip starting from a script); a string
accepted by `from_str` re-displays as the lower-case hex of its bytes,
which may differ from the original string when it used upper case. -/
theorem C6_hex_roundtrip (bytes : List Nat) (c : RedeemScriptContent)
    (hp : RedeemScriptContent.parse bytes = .ok c)
    (hb : ∀ b ∈ bytes, b < 256) :
    RedeemScript.from_str (RedeemScript.to_string bytes) = some bytes := by
  unfold RedeemScript.from_str RedeemScript.to_string
  rw [hexDecode_hexEncode bytes hb]
  simp only [RedeemScript.from_script, hp]

/-- Claim C6 witness: the amended round trip evaluated at the concrete 1-of-1
script. -/
theorem C6_witness :
    RedeemScript.from_str (RedeemScript.to_string script11)
      = some script11 :=
  C6_hex_roundtrip script11 { public_keys := [k0], quorum := 1 }
    (by decide) (by decide)

/-- Claim C7: `InputSignatureRef::from_bytes` succeeds exactly when the bytes
are non-empty and everything except the last byte passes the EC engine's
DER decoder (`derOk`); the empty slice fails with `InvalidMessage`; on
success the stored bytes are the input, `content` is all bytes except
the last, and `sighash_type` decodes the last byte. -/
theorem C7_from_bytes (derOk : List Nat → Bool) (bytes : List Nat) :
    ((∃ r, InputSignatureRef.from_bytes derOk bytes = .ok r) ↔
      bytes ≠ [] ∧ derOk bytes.dropLast = true) ∧
    InputSignatureRef.from_bytes derOk [] = .error .InvalidMessage ∧
    (∀ r, InputSignatureRef.from_bytes derOk bytes = .ok r →
      r = bytes ∧ InputSignatureRef.content r = bytes.dropLast ∧
      InputSignatureRef.sighash_type r
        = SigHashType.from_u32 (bytes.getLastD 0)) := by
  refine ⟨?_, rfl, ?_⟩
  · unfold InputSignatureRef.from_bytes
    by_cases h : bytes = []
    · simp [h]
    · rw [if_neg h]
      by_cases hd : derOk bytes.dropLast
      · simp [hd, h]
      · simp [hd, h]
  · intro r hr
    unfold InputSignatureRef.from_bytes at hr
    by_cases h : bytes = []
    · rw [if_pos h] at hr
      simp at hr
    · rw [if_neg h] at hr
      by_cases hd : derOk bytes.dropLast
      · rw [if_pos hd] at hr
        simp only [Except.ok.injEq] at hr
        subst hr
        exact ⟨rfl, rfl, rfl⟩
      · rw [if_neg hd] at hr
        simp at hr

/-- Claim C7 witness: the success case evaluated at a one-byte slice with an
always-accepting decoder, giving content `[]` and the decoded trailing
byte. -/
theorem C7_witness :
    InputSignatureRef.content [7] = [] ∧
    InputSignatureRef.sighash_type [7] = SigHashType.from_u32 7 ∧
    InputSignatureRef.from_bytes (fun _ => true) []
      = .error .InvalidMessage := by
  have h := (C7_from_bytes (fun _ => true) [7]).2.2 [7] (by decide)
  exact ⟨h.2.1, h.2.2, (C7_from_bytes (fun _ => true) []).2.1⟩

/-- Claim C8: the P2WPK `spend_input` replaces the input's witness with exactly
`[signature bytes, compressed public key]` and leaves the previous-output
reference, `script_sig` and `sequence` untouched; it is a total
function. -/
theorem C8_p2wpk_spend_input (pk : PublicKey) (network : p2wpk.Network)
    (input : TxIn) (sig : InputSignature) :
    ((p2wpk.InputSigner.spend_input ⟨pk, network⟩ input sig).witness
      = [sig.bytes, pk.serialize]) ∧
    ((p2wpk.InputSigner.spend_input ⟨pk, network⟩ input sig).prev_hash
      = input.prev_hash) ∧
    ((p2wpk.InputSigner.spend_input ⟨pk, network⟩ input sig).prev_index
      = input.prev_index) ∧
    ((p2wpk.InputSigner.spend_input ⟨pk, network⟩ input sig).script_sig
      = input.script_sig) ∧
    ((p2wpk.InputSigner.spend_input ⟨pk, network⟩ input sig).sequence
      = input.sequence) :=
  ⟨rfl, rfl, rfl, rfl, rfl⟩

/-- Claim C9: `TxOutValue::amount` returns the literal value for `Amount`, the
referenced output's value for `PrevOut`, and for `PrevTx` the value of
the output selected by the input's `prev_index`; when the three variants
describe the same spent output they agree. -/
theorem C9_amount (txin : TxInRef) (v : Nat) (tx : Transaction)
    (out : TxOut) :
    TxOutValue.amount (.Amount v) txin = some v ∧
    TxOutValue.amount (.PrevOut out) txin = some out.value ∧
    (tx.output.get? (TxInRef.input txin).prev_index = some out →
      TxOutValue.amount (.PrevTx tx) txin = some out.value ∧
      TxOutValue.amount (.PrevTx tx) txin
        = TxOutValue.amount (.Amount out.value) txin ∧
      TxOutValue.amount (.PrevTx tx) txin
        = TxOutValue.amount (.PrevOut out) txin) := by
  refine ⟨rfl, rfl, fun h => ?_⟩
  have ha : TxOutValue.amount (.PrevTx tx) txin = some out.value := by
    simp only [TxOutValue.amount]
    rw [h]
    rfl
  exact ⟨ha, ha.trans rfl, ha.trans rfl⟩

/-- Claim C9 witness: agreement of the three variants evaluated on the
concrete transaction `tx0`, whose input 0 references its 42-satoshi
output 0. -/
theorem C9_witness :
    TxOutValue.amount (.PrevTx tx0) txin0 = some 42 ∧
    TxOutValue.amount (.PrevTx tx0) txin0
      = TxOutValue.amount (.Amount 42) txin0 ∧
    TxOutValue.amount (.PrevTx tx0) txin0
      = TxOutValue.amount (.PrevOut { value := 42, script_pubkey := [] })
          txin0 :=
  (C9_amount txin0 0 tx0 { value := 42, script_pubkey := [] }).2.2 rfl

/-- Claim C10: `with_public_keys` initializes the quorum to the key count, so
`to_script` on a non-empty key list succeeds without a `quorum` call and
builds the N-of-N script. -/
theorem C10_with_public_keys (keys : List PublicKey) (hne : keys ≠ []) :
    RedeemScriptContent.quorum (RedeemScriptBuilder.with_public_keys keys)
      = keys.length ∧
    RedeemScriptBuilder.to_script (RedeemScriptBuilder.with_public_keys keys)
      = .ok (multisigScript keys.length keys) := by
  refine ⟨rfl, ?_⟩
  have hlen : keys.length ≠ 0 := by
    simp [List.length_eq_zero]
    exact hne
  exact to_script_ok (show 0 < keys.length by omega) hlen le_rfl

/-- Claim C10 witness: evaluated at the concrete singleton key list, giving the
1-of-1 script. -/
theorem C10_witness :
    RedeemScriptContent.quorum (RedeemScriptBuilder.with_public_keys [k0])
      = 1 ∧
    RedeemScriptBuilder.to_script (RedeemScriptBuilder.with_public_keys [k0])
      = .ok (multisigScript 1 [k0]) :=
  C10_with_public_keys [k0] (by decide)
